import Mathlib

/-!
# Verification of the query core (`src/query.rs`)

A shallow embedding of the script-hash status engine, transaction resolver,
merkle prover and fee estimator of `src/query.rs`, together with proofs of the
specification's claims about them.

Modelling conventions:

* `Sha256dHash` values, hash prefixes, script hashes and scripts are opaque in
  the source (the row codecs and the hash functions live outside this crate);
  they are modelled as natural numbers.
* The key-value store (`ReadStore`) is accessed through the row filters of
  `TxRow`/`RawTxRow`/`TxInRow`/`TxOutRow` (defined in the `index` module,
  outside this crate).  The store is therefore modelled at the row level: one
  field per scan/point-lookup shape the code performs.
* Rust's `Result` is modelled as `Except String`; `bail!`/`chain_err` produce
  `.error` values.  A failed `assert!` aborts the request and is likewise
  modelled as an `.error` (the process continues; the spec calls this a
  `Corruption` error that is fatal at the request level).
* `u32`/`u64` arithmetic is on `Nat`, with `% 4294967296` written out where the
  source performs an `as u32` cast or `u32` addition that may wrap.
* Rust's `HashMap`/`BTreeMap` are modelled as association lists with
  insert-replace semantics; `sort_unstable_by_key`/`sort_by` are modelled by a
  stable insertion sort (the source's unstable sort leaves tie order
  unspecified; no claim depends on tie order).
-/

/-- A 32-byte double-SHA256 digest (`Sha256dHash`), modelled opaquely. -/
abbrev Hash := Nat

/-- The first P bytes of a `Hash256` (`util::HashPrefix`), modelled opaquely. -/
abbrev HashPrefix := Nat

/-- A script hash (single SHA256 of a script's bytes), modelled opaquely. -/
abbrev ScriptHash := Nat

/-- An output script (`script_pubkey` bytes), modelled opaquely. -/
abbrev Script := Nat

/-- `const FUNDING_TXN_LIMIT: usize = 100;` -/
def FUNDING_TXN_LIMIT : Nat := 100

/-- Modelled from the spec: `bitcoin::OutPoint` (library type referenced by
`TxIn::previous_output`): pair of previous txid and `vout : u32`. -/
structure TxOutPoint where
  txid : Hash
  vout : Nat
deriving DecidableEq, Repr

/-- Modelled from the spec: `bitcoin::TxIn` — only the `previous_output` field
is read by this code. -/
structure TxIn where
  previous_output : TxOutPoint
deriving DecidableEq, Repr

/-- Modelled from the spec: `bitcoin::TxOut` — the code reads `script_pubkey`
and `value` (`u64` satoshis). -/
structure TxOut where
  script_pubkey : Script
  value : Nat
deriving DecidableEq, Repr

/-- Modelled from the spec: `bitcoin::Transaction` with its input and output
lists.  `txid` is the transaction's double-SHA256 id; in the library it is
computed from the serialization (`txn.txid()`), here it is carried as a field
of the opaque transaction value. -/
structure Transaction where
  input : List TxIn
  output : List TxOut
  txid : Hash
deriving DecidableEq, Repr

/-- Modelled from the spec: a decoded `index::TxRow` — the confirmed-tx anchor
row `"T" || txid_prefix || height → blockhash || full_txid`.  The decoded row
exposes the full txid (from `tx_row.key.txid`), the height and the blockhash. -/
structure TxRow where
  txid : Hash
  height : Nat
  blockhash : Hash
deriving DecidableEq, Repr

/-- Modelled from the spec: a header entry of the in-memory header index
(`util::HeaderEntry`): it carries at least its block hash and height. -/
structure HeaderEntry where
  hash : Hash
  height : Nat
deriving DecidableEq, Repr

/-- `util::TransactionStatus` — `Unconfirmed` or `Confirmed` with the header
seen to confirm the transaction. -/
inductive TransactionStatus where
  | unconfirmed
  | confirmed (header : HeaderEntry)
deriving DecidableEq, Repr

/-- `TxnHeight { txn, height, blockhash }` from `query.rs`. -/
structure TxnHeight where
  txn : Transaction
  height : Nat
  blockhash : Hash
deriving DecidableEq, Repr

/-- `type OutPoint = (Sha256dHash, usize);  // (txid, output_index)` -/
abbrev OutPoint := Hash × Nat

/-- `pub struct FundingOutput` from `query.rs`. -/
structure FundingOutput where
  txn : Option TxnHeight
  txn_id : Hash
  height : Nat
  output_index : Nat
  value : Nat
deriving DecidableEq, Repr

/-- `impl From<OutPoint> for FundingOutput` (`FundingOutput::from(out)`). -/
def FundingOutput.fromOutPoint (out : OutPoint) : FundingOutput :=
  { txn_id := out.1
    output_index := out.2
    txn := none
    height := 0
    value := 0 }

/-- `pub struct SpendingInput` from `query.rs`. -/
structure SpendingInput where
  txn : Option TxnHeight
  txn_id : Hash
  height : Nat
  input_index : Nat
  funding_output : OutPoint
  value : Nat
deriving DecidableEq, Repr

/-- `pub struct Status` from `query.rs`: confirmed and mempool
`(funding, spending)` pairs. -/
structure Status where
  confirmed : List FundingOutput × List SpendingInput
  mempool : List FundingOutput × List SpendingInput
deriving DecidableEq, Repr

/-- Modelled from the spec: the `ReadStore` face of the ordered key-value store
(`store` module) plus the row codecs of the `index` module, neither of which is
in this crate.  Each field is one scan/point-lookup shape the query code
performs; the row codecs' key layouts guarantee the groupings below. -/
structure ReadStore where
  /-- `scan(TxOutRow::filter(script_hash))`, decoded to each row's
  `txid_prefix`, in key order. -/
  txOutScan : ScriptHash → List HashPrefix
  /-- `scan(TxRow::filter_prefix(txid_prefix))`, decoded rows in key order. -/
  txRowScan : HashPrefix → List TxRow
  /-- `get(TxRow::filter_full(txid))`, decoded (`txrow_by_txid`). -/
  txRowGet : Hash → Option TxRow
  /-- `scan(TxInRow::filter(prev_txid, prev_vout))`, decoded to each row's
  spender `txid_prefix`, in key order. -/
  txInScan : Hash → Nat → List HashPrefix
  /-- `get(RawTxRow::filter_full(txid))` followed by deserialization
  (`rawtxrow_by_txid` + `deserialize(&row.rawtx)`). -/
  rawTxGet : Hash → Option Transaction
  /-- `get("X" || blockhash)` deserialized to the block's txid list
  (`get_block_txids`). -/
  blockTxids : Hash → Option (List Hash)

/-- Modelled from the spec: the environment of a `Query` value — the confirmed
store (`app.read_store()`), the mempool tracker's store-shaped index and
in-memory tx map (`mempool::Tracker`), the header index (`app.index()`), and
the pure library functions `index::compute_script_hash` and
`Script::is_provably_unspendable`, none of which is in this crate. -/
structure Query where
  read_store : ReadStore
  tracker_index : ReadStore
  tracker_get_txn : Hash → Option Transaction
  index_get_header : Nat → Option HeaderEntry
  compute_script_hash : Script → ScriptHash
  is_provably_unspendable : Script → Bool

/-- `fn txrow_by_txid(store, txid)`. -/
def txrow_by_txid (store : ReadStore) (txid : Hash) : Option TxRow :=
  store.txRowGet txid

/-- `fn txrows_by_prefix(store, txid_prefix)`. -/
def txrows_by_prefix (store : ReadStore) ( txid_prefix : HashPrefix) : List TxRow :=
  store.txRowScan txid_prefix

/-- `fn txids_by_script_hash(store, script_hash)`: scan `TxOutRow` by script
hash and take at most `FUNDING_TXN_LIMIT + 1` prefixes. -/
def txids_by_script_hash (store : ReadStore) (script_hash : ScriptHash) : List HashPrefix :=
  (store.txOutScan script_hash).take (FUNDING_TXN_LIMIT + 1)

/-- `fn txids_by_funding_output(store, txn_id, output_index)`. -/
def txids_by_funding_output (store : ReadStore) (txn_id : Hash) (output_index : Nat) :
    List HashPrefix :=
  store.txInScan txn_id output_index

/-- `fn get_block_txids(store, blockhash)` (free function). -/
def get_block_txids (store : ReadStore) (blockhash : Hash) : Option (List Hash) :=
  store.blockTxids blockhash

/-- `Query::tx_get`: the raw-tx row from the confirmed store, else the mempool
tracker's in-memory map. -/
def Query.tx_get (q : Query) (txid : Hash) : Option Transaction :=
  (q.read_store.rawTxGet txid).or (q.tracker_get_txn txid)

/-- The inner double loop of `Query::load_txns_by_prefix`: for each decoded
`TxRow`, fetch the full transaction via `tx_get` (`chain_err(|| "cannot locate
tx")` on failure) and assemble a `TxnHeight`. -/
def Query.load_rows (q : Query) : List TxRow → Except String (List TxnHeight)
  | [] => .ok []
  | r :: rest =>
    match q.tx_get r.txid with
    | none => .error "cannot locate tx"
    | some txn =>
      match q.load_rows rest with
      | .error e => .error e
      | .ok txns => .ok ({ txn := txn, height := r.height, blockhash := r.blockhash } :: txns)

/-- `Query::load_txns_by_prefix`: `bail!("Too many txs")` above
`FUNDING_TXN_LIMIT` prefixes, else resolve every prefix to all its `TxRow`
candidates and load each. -/
def Query.load_txns_by_prefix (q : Query) (store : ReadStore)
    (prefixes : List HashPrefix) : Except String (List TxnHeight) :=
  if prefixes.length > FUNDING_TXN_LIMIT then
    .error "Too many txs"
  else
    q.load_rows (prefixes.flatMap (fun txid_prefix => txrows_by_prefix store txid_prefix))

/-- The candidate list built inside `Query::find_spending_input`: every input
of every candidate transaction whose `previous_output` is the funding outpoint
(`vout` compared against `funding.output_index as u32`). -/
def spending_inputs_of (funding : FundingOutput) (spending_txns : List TxnHeight) :
    List SpendingInput :=
  spending_txns.flatMap fun t =>
    t.txn.input.enum.filterMap fun p =>
      if p.2.previous_output.txid = funding.txn_id ∧
          p.2.previous_output.vout = funding.output_index % 4294967296 then
        some { txn := some t
               txn_id := t.txn.txid
               height := t.height
               input_index := p.1
               funding_output := (funding.txn_id, funding.output_index)
               value := funding.value }
      else none

/-- `Query::find_spending_input`: load the spender candidates from the
`TxInRow` index, filter by exact outpoint match, and
`assert!(spending_inputs.len() <= 1)` (a failed assertion aborts the request
and is modelled as a request-level error). -/
def Query.find_spending_input (q : Query) (store : ReadStore) (funding : FundingOutput) :
    Except String (Option SpendingInput) :=
  match q.load_txns_by_prefix store
      (txids_by_funding_output store funding.txn_id funding.output_index) with
  | .error e => .error e
  | .ok spending_txns =>
    let spending_inputs := spending_inputs_of funding spending_txns
    if spending_inputs.length ≤ 1 then
      .ok spending_inputs.head?
    else
      .error "assertion failed: spending_inputs.len() <= 1"

/-- `Query::find_funding_outputs`: emit a `FundingOutput` for each output of
`t` whose script hashes to `script_hash`. -/
def Query.find_funding_outputs (q : Query) (t : TxnHeight) (script_hash : ScriptHash) :
    List FundingOutput :=
  t.txn.output.enum.filterMap fun p =>
    if q.compute_script_hash p.2.script_pubkey = script_hash then
      some { txn := some t
             txn_id := t.txn.txid
             height := t.height
             output_index := p.1
             value := p.2.value }
    else none

/-- The `for funding_output in ... { if let Some(spent) = find_spending_input
... }` loops of `confirmed_status`/`mempool_status`: probe each funding output
for its spender in `store`, collecting the hits and propagating errors. -/
def Query.collect_spending (q : Query) (store : ReadStore) :
    List FundingOutput → Except String (List SpendingInput)
  | [] => .ok []
  | f :: rest =>
    match q.find_spending_input store f with
    | .error e => .error e
    | .ok spent? =>
      match q.collect_spending store rest with
      | .error e => .error e
      | .ok spending =>
        match spent? with
        | some spent => .ok (spent :: spending)
        | none => .ok spending

/-- `Query::confirmed_status`. -/
def Query.confirmed_status (q : Query) (script_hash : ScriptHash) :
    Except String (List FundingOutput × List SpendingInput) :=
  match q.load_txns_by_prefix q.read_store (txids_by_script_hash q.read_store script_hash) with
  | .error e => .error e
  | .ok txns =>
    let funding := txns.flatMap (fun t => q.find_funding_outputs t script_hash)
    match q.collect_spending q.read_store funding with
    | .error e => .error e
    | .ok spending => .ok (funding, spending)

/-- `Query::mempool_status`: mempool funding for the script hash, then a
spending scan over the mempool-found funding outputs *chained with* the
confirmed ones. -/
def Query.mempool_status (q : Query) (script_hash : ScriptHash)
    (confirmed_funding : List FundingOutput) :
    Except String (List FundingOutput × List SpendingInput) :=
  match q.load_txns_by_prefix q.tracker_index
      (txids_by_script_hash q.tracker_index script_hash) with
  | .error e => .error e
  | .ok txns =>
    let funding := txns.flatMap (fun t => q.find_funding_outputs t script_hash)
    match q.collect_spending q.tracker_index (funding ++ confirmed_funding) with
    | .error e => .error e
    | .ok spending => .ok (funding, spending)

/-- `Query::status`. -/
def Query.status (q : Query) (script_hash : ScriptHash) : Except String Status :=
  match q.confirmed_status script_hash with
  | .error e => .error e
  | .ok confirmed =>
    match q.mempool_status script_hash confirmed.1 with
    | .error e => .error e
    | .ok mempool => .ok { confirmed := confirmed, mempool := mempool }

/-- `Query::find_spending_by_outpoint`: probe the confirmed store first, then
the mempool index, with a probe `FundingOutput` built by `From<OutPoint>`. -/
def Query.find_spending_by_outpoint (q : Query) (outpoint : OutPoint) :
    Except String (Option SpendingInput) :=
  let funding_output := FundingOutput.fromOutPoint outpoint
  match q.find_spending_input q.read_store funding_output with
  | .error e => .error e
  | .ok (some spent) => .ok (some spent)
  | .ok none =>
    match q.find_spending_input q.tracker_index funding_output with
    | .error e => .error e
    | .ok (some spent) => .ok (some spent)
    | .ok none => .ok none

/-- The per-output body of `Query::find_spending_for_funding_tx`. -/
def Query.spend_for_output (q : Query) (txid : Hash) (p : Nat × TxOut) :
    Except String (Option SpendingInput) :=
  if ¬ q.is_provably_unspendable p.2.script_pubkey then
    q.find_spending_by_outpoint (txid, p.1)
  else
    .ok none

/-- The `for (output_index, output) in tx.output.iter().enumerate()` loop of
`Query::find_spending_for_funding_tx`, pushing one entry per output. -/
def Query.spends_for_outputs (q : Query) (txid : Hash) :
    List (Nat × TxOut) → Except String (List (Option SpendingInput))
  | [] => .ok []
  | p :: rest =>
    match q.spend_for_output txid p with
    | .error e => .error e
    | .ok spend =>
      match q.spends_for_outputs txid rest with
      | .error e => .error e
      | .ok spends => .ok (spend :: spends)

/-- `Query::find_spending_for_funding_tx`: one `Option SpendingInput` per
output position, skipping provably unspendable scripts. -/
def Query.find_spending_for_funding_tx (q : Query) (tx : Transaction) :
    Except String (List (Option SpendingInput)) :=
  q.spends_for_outputs tx.txid tx.output.enum

/-- `Query::lookup_confirmed_blockhash`: `None` for mempool transactions, else
the hash of the header currently at the resolved height (the hint if supplied,
else the `TxRow` height).  The `TxRow`'s own stored blockhash is never
returned.  (`chain_err` message texts are abbreviated.) -/
def Query.lookup_confirmed_blockhash (q : Query) (tx_hash : Hash)
    (block_height : Option Nat) : Except String (Option Hash) :=
  if (q.tracker_get_txn tx_hash).isSome then
    .ok none  -- found in mempool (as unconfirmed transaction)
  else
    let height? : Except String Nat :=
      match block_height with
      | some height => .ok height
      | none =>
        match txrow_by_txid q.read_store tx_hash with
        | some row => .ok row.height
        | none => .error "not indexed tx"
    match height? with
    | .error e => .error e
    | .ok height =>
      match q.index_get_header height with
      | none => .error "missing header at height"
      | some header => .ok (some header.hash)

/-- `Query::get_tx_status`: no `TxRow` → unconfirmed; header at the row's
height missing → error; header hash differing from the row's recorded
blockhash → unconfirmed (reorged); else confirmed with that header. -/
def Query.get_tx_status (q : Query) (tx_hash : Hash) : Except String TransactionStatus :=
  match txrow_by_txid q.read_store tx_hash with
  | none => .ok .unconfirmed
  | some txrow =>
    match q.index_get_header txrow.height with
    | none => .error "invalid block height for tx"
    | some header =>
      if header.hash ≠ txrow.blockhash then
        .ok .unconfirmed
      else
        .ok (.confirmed header)

/-- The duplicate-last-element step of `Query::get_merkle_proof`:
`if txids.len() % 2 != 0 { txids.push(*txids.last().unwrap()) }`. -/
def padOdd (txids : List Hash) : List Hash :=
  if txids.length % 2 ≠ 0 then txids ++ [txids.getLast!] else txids

/-- `txids.chunks(2).map(|pair| merklize(pair[0], pair[1]))`: the source's
`merklize` is `Sha256dHash::from_data(left || right)`; the combiner is a
library hash, carried here as the parameter `merklize`.  The caller always
passes an even-length list (an odd trailing chunk would make `pair[1]` panic
in the source), so the one-element case is unreachable and dropped. -/
def hashPairs (merklize : Hash → Hash → Hash) : List Hash → List Hash
  | a :: b :: rest => merklize a b :: hashPairs merklize rest
  | _ => []

theorem hashPairs_length (merklize : Hash → Hash → Hash) :
    ∀ l : List Hash, (hashPairs merklize l).length = l.length / 2
  | [] => by simp [hashPairs]
  | [_] => by simp [hashPairs]
  | _ :: _ :: rest => by
    simp [hashPairs, hashPairs_length merklize rest]
    omega

theorem padOdd_length (txids : List Hash) :
    (padOdd txids).length = if txids.length % 2 ≠ 0 then txids.length + 1 else txids.length := by
  unfold padOdd
  split <;> simp

/-- The `while txids.len() > 1` loop of `Query::get_merkle_proof`, producing
the proof path: pad to even, record the sibling (`index ± 1` by parity), halve
the index, collapse one level. -/
def merkleLoop (merklize : Hash → Hash → Hash) (txids : List Hash) (index : Nat) :
    List Hash :=
  if h : txids.length > 1 then
    let padded := padOdd txids
    let sibling := if index % 2 = 0 then index + 1 else index - 1
    padded[sibling]! :: merkleLoop merklize (hashPairs merklize padded) (index / 2)
  else
    []
termination_by txids.length
decreasing_by
  simp only [hashPairs_length, padOdd_length]
  split <;> omega

/-- `Query::get_merkle_proof`, parametrized by the library hash combiner. -/
def Query.get_merkle_proof (q : Query) (merklize : Hash → Hash → Hash)
    (tx_hash block_hash : Hash) : Except String (List Hash × Nat) :=
  match get_block_txids q.read_store block_hash with
  | none => .error "missing txids for block"
  | some txids =>
    match txids.findIdx? (fun txid => txid = tx_hash) with
    | none => .error "missing txid"
    | some pos => .ok (merkleLoop merklize txids pos, pos)

/-- The merkle root of a txid list under the duplicate-last-leaf rule: the same
level collapse the proof loop performs, iterated to a single node. -/
def merkleRoot (merklize : Hash → Hash → Hash) (txids : List Hash) : Hash :=
  if _h : txids.length > 1 then
    merkleRoot merklize (hashPairs merklize (padOdd txids))
  else
    txids.headD 0
termination_by txids.length
decreasing_by
  simp only [hashPairs_length, padOdd_length]
  split <;> omega

/-- Folding a leaf up a proof path: pair left/right by the parity of the
running index, halving the index each step (the Electrum client's
verification order). -/
def foldProof (merklize : Hash → Hash → Hash) : List Hash → Hash → Nat → Hash
  | [], h, _ => h
  | sib :: rest, h, index =>
    foldProof merklize rest (if index % 2 = 0 then merklize h sib else merklize sib h)
      (index / 2)

/-- The accumulation loop of `Query::estimate_fee` over the fee histogram:
`last_fee_rate = *fee_rate; total_vsize += vsize; if total_vsize >=
blocks_in_vbytes { break }`.  `total_vsize` is a `u32` and wraps; fee rates are
`f32` in the source, modelled as exact rationals (the claims about this
function only compare fee rates, and `f32` comparison of finite values agrees
with the rational order). -/
def feeLoop (target : Nat) : Nat → ℚ → List (ℚ × Nat) → ℚ
  | _, last_fee_rate, [] => last_fee_rate
  | total_vsize, _, (fee_rate, vsize) :: rest =>
    let total_vsize' := (total_vsize + vsize) % 4294967296
    if total_vsize' ≥ target then fee_rate
    else feeLoop target total_vsize' fee_rate rest

/-- `Query::estimate_fee`, parametrized by the tracker's fee histogram
(`(fee_rate, vsize)` buckets).  `blocks_in_vbytes = (blocks * 1_000_000) as
u32` — the cast truncates. -/
def estimate_fee (fee_histogram : List (ℚ × Nat)) (blocks : Nat) : ℚ :=
  let blocks_in_vbytes := (blocks * 1000000) % 4294967296
  feeLoop blocks_in_vbytes 0 0 fee_histogram * (1 / 100000)

/-- `Status::funding`: confirmed funding chained with mempool funding. -/
def Status.funding (s : Status) : List FundingOutput :=
  s.confirmed.1 ++ s.mempool.1

/-- `Status::spending`: confirmed spending chained with mempool spending. -/
def Status.spending (s : Status) : List SpendingInput :=
  s.confirmed.2 ++ s.mempool.2

/-- Insert-replace on an association list: the map shape shared by the
`HashMap`/`BTreeMap` uses in `Status` (`insert` replaces the value bound to an
existing key). -/
def insertMap {κ α : Type} [DecidableEq κ] :
    List (κ × α) → κ → α → List (κ × α)
  | [], k, v => [(k, v)]
  | (k', v') :: rest, k, v =>
    if k = k' then (k, v) :: rest else (k', v') :: insertMap rest k v

/-- Key removal on an association list (`HashMap::remove`). -/
def eraseMap {κ α : Type} [DecidableEq κ] :
    List (κ × α) → κ → List (κ × α)
  | [], _ => []
  | (k', v') :: rest, k =>
    if k = k' then rest else (k', v') :: eraseMap rest k

/-- Stable insertion of one element into a sorted list (ascending under
`le`). -/
def insertSorted {α : Type} (le : α → α → Bool) (a : α) : List α → List α
  | [] => [a]
  | b :: rest => if le a b then a :: b :: rest else b :: insertSorted le a rest

/-- Stable insertion sort, modelling the source's `sort_unstable`/`sort_by`
calls (the unstable sorts leave tie order unspecified; no claim depends on tie
order). -/
def sortBy {α : Type} (le : α → α → Bool) : List α → List α
  | [] => []
  | a :: rest => insertSorted le a (sortBy le rest)

/-- `Status::history_txs`: a `BTreeMap<txid, &TxnHeight>` filled from funding
then spending entries, values listed in key order and re-sorted by descending
height.  The source unwraps each entry's `txn` handle (`f.txn.as_ref()
.unwrap()`); the panic on a missing handle is modelled as `none`. -/
def Status.history_txs (s : Status) : Option (List TxnHeight) :=
  match s.funding.foldlM
      (fun m f => (f.txn).map (fun t => insertMap m f.txn_id t))
      ([] : List (Hash × TxnHeight)) with
  | none => none
  | some m =>
    match s.spending.foldlM (fun m sp => (sp.txn).map (fun t => insertMap m sp.txn_id t)) m with
    | none => none
    | some m =>
      let txns := (sortBy (fun a b => a.1 ≤ b.1) m).map (·.2)
      some (sortBy (fun a b => b.height ≤ a.height) txns)

/-- `Status::unspent`: map the union funding list by outpoint (insert-replace),
remove every spent outpoint (the source logs a warning when removal misses),
and list the survivors sorted by ascending height. -/
def Status.unspent (s : Status) : List FundingOutput :=
  let outputs_map : List (OutPoint × FundingOutput) :=
    s.funding.foldl (fun m f => insertMap m (f.txn_id, f.output_index) f) []
  let outputs_map := s.spending.foldl (fun m sp => eraseMap m sp.funding_output) outputs_map
  sortBy (fun a b => a.height ≤ b.height) (outputs_map.map (·.2))

/-! ## Concrete fixtures (used by the witness theorems) -/

/-- A store with no rows at all. -/
def emptyStore : ReadStore :=
  { txOutScan := fun _ => []
    txRowScan := fun _ => []
    txRowGet := fun _ => none
    txInScan := fun _ _ => []
    rawTxGet := fun _ => none
    blockTxids := fun _ => none }

/-- Scenario S2's `txA`: funds script `0` at output 0 with value 1000. -/
def txA : Transaction := { input := [], output := [{ script_pubkey := 0, value := 1000 }], txid := 1 }

/-- Scenario S2's `txC`: a mempool transaction spending `txA:0`. -/
def txC : Transaction :=
  { input := [{ previous_output := { txid := 1, vout := 0 } }], output := [], txid := 2 }

/-- Scenario S2's confirmed store: `txA` confirmed at height 100 in block 9. -/
def storeA : ReadStore :=
  { emptyStore with
    txOutScan := fun sh => if sh = 0 then [1] else []
    txRowScan := fun p => if p = 1 then [⟨1, 100, 9⟩] else []
    txRowGet := fun t => if t = 1 then some ⟨1, 100, 9⟩ else none
    rawTxGet := fun t => if t = 1 then some txA else none }

/-- Scenario S2's mempool index: `txC` pending (height `u32::MAX`), spending
outpoint `(1, 0)`. -/
def storeC : ReadStore :=
  { emptyStore with
    txRowScan := fun p => if p = 2 then [⟨2, 4294967295, 0⟩] else []
    txInScan := fun t i => if t = 1 ∧ i = 0 then [2] else [] }

/-- Scenario S2's query environment. -/
def qS2 : Query :=
  { read_store := storeA
    tracker_index := storeC
    tracker_get_txn := fun t => if t = 2 then some txC else none
    index_get_header := fun h => if h = 100 then some ⟨9, 100⟩ else none
    compute_script_hash := fun s => s
    is_provably_unspendable := fun _ => false }

/-- `txA` as loaded by the status engine. -/
def tA : TxnHeight := { txn := txA, height := 100, blockhash := 9 }

/-- `txC` as loaded by the status engine. -/
def tC : TxnHeight := { txn := txC, height := 4294967295, blockhash := 0 }

/-- The confirmed funding output of scenario S2. -/
def fA : FundingOutput := { txn := some tA, txn_id := 1, height := 100, output_index := 0, value := 1000 }

/-- The mempool spending input of scenario S2. -/
def spC : SpendingInput :=
  { txn := some tC, txn_id := 2, height := 4294967295, input_index := 0,
    funding_output := (1, 0), value := 1000 }

/-- The `Status` value scenario S2 produces. -/
def sS2 : Status := { confirmed := ([fA], []), mempool := ([], [spC]) }

/-! ## Shared membership lemmas -/

/-- Soundness of the output filter of `find_funding_outputs`: every emitted
`FundingOutput` points back at an output of `t` whose script hashes to the
queried script hash. -/
theorem mem_find_funding_outputs {q : Query} {t : TxnHeight} {sh : ScriptHash}
    {fo : FundingOutput} (hm : fo ∈ q.find_funding_outputs t sh) :
    fo.txn = some t ∧ fo.txn_id = t.txn.txid ∧ fo.height = t.height ∧
    ∃ out, t.txn.output[fo.output_index]? = some out ∧
      q.compute_script_hash out.script_pubkey = sh ∧ fo.value = out.value := by
  unfold Query.find_funding_outputs at hm
  rw [List.mem_filterMap] at hm
  obtain ⟨⟨i, out⟩, hp, hif⟩ := hm
  by_cases hc : q.compute_script_hash out.script_pubkey = sh
  · rw [if_pos hc] at hif
    obtain ⟨hlt, hval⟩ := List.mem_enum hp
    cases hif
    refine ⟨rfl, rfl, rfl, out, ?_, hc, rfl⟩
    rw [List.getElem?_eq_getElem hlt, hval]
  · rw [if_neg hc] at hif
    exact absurd hif (by simp)

/-- Soundness of the outpoint filter of `find_spending_input`: every candidate
`SpendingInput` records an input of its transaction whose `previous_output` is
the funding outpoint. -/
theorem mem_spending_inputs_of {f : FundingOutput} {ts : List TxnHeight}
    {s : SpendingInput} (hm : s ∈ spending_inputs_of f ts) :
    ∃ t ∈ ts, s.txn = some t ∧ s.txn_id = t.txn.txid ∧ s.height = t.height ∧
      s.funding_output = (f.txn_id, f.output_index) ∧ s.value = f.value ∧
      ∃ inp, t.txn.input[s.input_index]? = some inp ∧
        inp.previous_output.txid = f.txn_id ∧
        inp.previous_output.vout = f.output_index % 4294967296 := by
  unfold spending_inputs_of at hm
  rw [List.mem_flatMap] at hm
  obtain ⟨t, ht, hmem⟩ := hm
  rw [List.mem_filterMap] at hmem
  obtain ⟨⟨i, inp⟩, hp, hif⟩ := hmem
  by_cases hc : inp.previous_output.txid = f.txn_id ∧
      inp.previous_output.vout = f.output_index % 4294967296
  · rw [if_pos hc] at hif
    obtain ⟨hlt, hval⟩ := List.mem_enum hp
    cases hif
    refine ⟨t, ht, rfl, rfl, rfl, rfl, rfl, inp, ?_, hc.1, hc.2⟩
    rw [List.getElem?_eq_getElem hlt, hval]
  · rw [if_neg hc] at hif
    exact absurd hif (by simp)

/-- C3: for every txid with a `TxRow` whose recorded blockhash differs from the
hash of the header at the recorded height, `get_tx_status` returns
`Unconfirmed`; with equal hashes it returns `Confirmed` with that header; with
no `TxRow` it returns `Unconfirmed`. -/
theorem get_tx_status_reorg_guard (q : Query) (tx_hash : Hash) :
    (txrow_by_txid q.read_store tx_hash = none →
      q.get_tx_status tx_hash = .ok .unconfirmed) ∧
    (∀ row header, txrow_by_txid q.read_store tx_hash = some row →
      q.index_get_header row.height = some header →
      (header.hash ≠ row.blockhash → q.get_tx_status tx_hash = .ok .unconfirmed) ∧
      (header.hash = row.blockhash → q.get_tx_status tx_hash = .ok (.confirmed header))) := by
  constructor
  · intro h
    unfold Query.get_tx_status
    rw [h]
  · intro row header hrow hheader
    constructor <;> intro hh <;> unfold Query.get_tx_status <;> rw [hrow] <;>
      simp [hheader, hh]

theorem get_tx_status_reorg_guard_witness :
    qS2.get_tx_status 1 = .ok (.confirmed ⟨9, 100⟩) ∧
    qS2.get_tx_status 5 = .ok .unconfirmed :=
  ⟨((get_tx_status_reorg_guard qS2 1).2 ⟨1, 100, 9⟩ ⟨9, 100⟩ (by decide) (by decide)).2
      (by decide),
    (get_tx_status_reorg_guard qS2 5).1 (by decide)⟩

/-- C8: `lookup_confirmed_blockhash` returns `None` whenever the transaction is
in the mempool view; any blockhash it does return is the hash of the header
currently at the resolved height (the hint if supplied, else the `TxRow`
height) — never the blockhash stored in the `TxRow`. -/
theorem lookup_confirmed_blockhash_spec (q : Query) (tx_hash : Hash) (hint : Option Nat) :
    ((q.tracker_get_txn tx_hash).isSome →
      q.lookup_confirmed_blockhash tx_hash hint = .ok none) ∧
    (∀ bh, q.lookup_confirmed_blockhash tx_hash hint = .ok (some bh) →
      q.tracker_get_txn tx_hash = none ∧
      ∃ height header, q.index_get_header height = some header ∧ bh = header.hash ∧
        (hint = some height ∨
          (hint = none ∧ ∃ row, txrow_by_txid q.read_store tx_hash = some row ∧
            height = row.height))) := by
  constructor
  · intro h
    unfold Query.lookup_confirmed_blockhash
    rw [if_pos h]
  · intro bh h
    unfold Query.lookup_confirmed_blockhash at h
    by_cases ht : (q.tracker_get_txn tx_hash).isSome
    · rw [if_pos ht] at h
      simp at h
    · rw [if_neg ht] at h
      refine ⟨Option.not_isSome_iff_eq_none.mp ht, ?_⟩
      cases hint with
      | some height =>
        cases hh : q.index_get_header height with
        | none => simp [hh] at h
        | some header =>
          simp [hh] at h
          exact ⟨height, header, hh, h.symm, Or.inl rfl⟩
      | none =>
        cases hrow : txrow_by_txid q.read_store tx_hash with
        | none => simp [hrow] at h
        | some row =>
          simp [hrow] at h
          cases hh : q.index_get_header row.height with
          | none => simp [hh] at h
          | some header =>
            simp [hh] at h
            exact ⟨row.height, header, hh, h.symm, Or.inr ⟨rfl, row, rfl, rfl⟩⟩

theorem lookup_confirmed_blockhash_spec_witness :
    qS2.lookup_confirmed_blockhash 2 none = .ok none ∧
    (qS2.tracker_get_txn 1 = none ∧
      ∃ height header, qS2.index_get_header height = some header ∧ (9 : Hash) = header.hash ∧
        ((none : Option Nat) = some height ∨
          ((none : Option Nat) = none ∧ ∃ row, txrow_by_txid qS2.read_store 1 = some row ∧
            height = row.height))) :=
  ⟨(lookup_confirmed_blockhash_spec qS2 2 none).1 (by decide),
    (lookup_confirmed_blockhash_spec qS2 1 none).2 9 rfl⟩

/-! ## Inversion lemmas for the status pipeline -/

/-- Inverting a successful `confirmed_status`: the funding list is exactly the
filtered outputs of the loaded candidates, and the spending list comes from
probing those funding outputs. -/
theorem confirmed_status_ok {q : Query} {sh : ScriptHash}
    {fs : List FundingOutput} {ss : List SpendingInput}
    (h : q.confirmed_status sh = .ok (fs, ss)) :
    ∃ txns, q.load_txns_by_prefix q.read_store (txids_by_script_hash q.read_store sh)
        = .ok txns ∧
      fs = txns.flatMap (fun t => q.find_funding_outputs t sh) ∧
      q.collect_spending q.read_store fs = .ok ss := by
  unfold Query.confirmed_status at h
  split at h
  · exact absurd h (by simp)
  · rename_i txns hload
    simp only [] at h
    split at h
    · exact absurd h (by simp)
    · rename_i spending hcol
      obtain ⟨h1, h2⟩ := Prod.mk.injEq .. ▸ Except.ok.inj h
      subst h1; subst h2
      exact ⟨txns, hload, rfl, hcol⟩

/-- Inverting a successful `mempool_status`: the spending scan runs over the
mempool funding outputs chained with the confirmed ones. -/
theorem mempool_status_ok {q : Query} {sh : ScriptHash}
    {confirmed_funding fs : List FundingOutput} {ss : List SpendingInput}
    (h : q.mempool_status sh confirmed_funding = .ok (fs, ss)) :
    ∃ txns, q.load_txns_by_prefix q.tracker_index
        (txids_by_script_hash q.tracker_index sh) = .ok txns ∧
      fs = txns.flatMap (fun t => q.find_funding_outputs t sh) ∧
      q.collect_spending q.tracker_index (fs ++ confirmed_funding) = .ok ss := by
  unfold Query.mempool_status at h
  split at h
  · exact absurd h (by simp)
  · rename_i txns hload
    simp only [] at h
    split at h
    · exact absurd h (by simp)
    · rename_i spending hcol
      obtain ⟨h1, h2⟩ := Prod.mk.injEq .. ▸ Except.ok.inj h
      subst h1; subst h2
      exact ⟨txns, hload, rfl, hcol⟩

/-- Inverting a successful `status`. -/
theorem status_ok {q : Query} {sh : ScriptHash} {s : Status}
    (h : q.status sh = .ok s) :
    q.confirmed_status sh = .ok s.confirmed ∧
    q.mempool_status sh s.confirmed.1 = .ok s.mempool := by
  unfold Query.status at h
  split at h
  · exact absurd h (by simp)
  · rename_i confirmed hconf
    split at h
    · exact absurd h (by simp)
    · rename_i mempool hmem
      cases Except.ok.inj h
      exact ⟨hconf, hmem⟩

/-- Inverting a successful `find_spending_input` that found a spender: the
spender is the head of the candidate list over the loaded transactions. -/
theorem find_spending_input_ok_some {q : Query} {store : ReadStore}
    {f : FundingOutput} {s : SpendingInput}
    (h : q.find_spending_input store f = .ok (some s)) :
    ∃ ts, q.load_txns_by_prefix store
        (txids_by_funding_output store f.txn_id f.output_index) = .ok ts ∧
      s ∈ spending_inputs_of f ts := by
  unfold Query.find_spending_input at h
  split at h
  · exact absurd h (by simp)
  · rename_i ts hload
    refine ⟨ts, hload, ?_⟩
    simp only [] at h
    split at h
    · cases hsi : spending_inputs_of f ts with
      | nil => rw [hsi] at h; simp at h
      | cons hd tl =>
        rw [hsi] at h
        simp only [List.head?] at h
        cases Except.ok.inj h
        exact List.mem_cons_self ..
    · exact absurd h (by simp)

/-- Every spending input a successful `collect_spending` returns was found by
`find_spending_input` on one of the scanned funding outputs. -/
theorem mem_collect_spending {q : Query} {store : ReadStore} :
    ∀ {l : List FundingOutput} {out : List SpendingInput},
      q.collect_spending store l = .ok out → ∀ sp ∈ out,
        ∃ f ∈ l, q.find_spending_input store f = .ok (some sp)
  | [], out, h, sp, hsp => by
    unfold Query.collect_spending at h
    cases Except.ok.inj h
    exact absurd hsp (by simp)
  | f :: rest, out, h, sp, hsp => by
    unfold Query.collect_spending at h
    split at h
    · exact absurd h (by simp)
    · rename_i spent? hf
      split at h
      · exact absurd h (by simp)
      · rename_i spending hrest
        cases spent? with
        | some spent =>
          cases Except.ok.inj h
          rcases List.mem_cons.mp hsp with hsp | hsp
          · subst hsp
            exact ⟨f, List.mem_cons_self .., hf⟩
          · obtain ⟨g, hg, hfind⟩ := mem_collect_spending hrest sp hsp
            exact ⟨g, List.mem_cons_of_mem f hg, hfind⟩
        | none =>
          cases Except.ok.inj h
          obtain ⟨g, hg, hfind⟩ := mem_collect_spending hrest sp hsp
          exact ⟨g, List.mem_cons_of_mem f hg, hfind⟩

/-- Conversely, a funding output in the scanned list whose probe finds a
spender contributes that spender to a successful `collect_spending`. -/
theorem collect_spending_complete {q : Query} {store : ReadStore} :
    ∀ {l : List FundingOutput} {out : List SpendingInput},
      q.collect_spending store l = .ok out → ∀ f ∈ l, ∀ sp,
        q.find_spending_input store f = .ok (some sp) → sp ∈ out
  | [], out, h, f, hf, sp, hfind => absurd hf (by simp)
  | g :: rest, out, h, f, hf, sp, hfind => by
    unfold Query.collect_spending at h
    split at h
    · exact absurd h (by simp)
    · rename_i spent? hg
      split at h
      · exact absurd h (by simp)
      · rename_i spending hrest
        rcases List.mem_cons.mp hf with hfg | hftl
        · subst hfg
          rw [hfind] at hg
          cases Except.ok.inj hg
          cases Except.ok.inj h
          exact List.mem_cons_self ..
        · have hmem := collect_spending_complete hrest f hftl sp hfind
          cases spent? with
          | some spent =>
            cases Except.ok.inj h
            exact List.mem_cons_of_mem spent hmem
          | none =>
            cases Except.ok.inj h
            exact hmem

/-- C1: every funding output in a `status(S)` result (confirmed or mempool
part) refers to an output of its transaction whose script hashes to `S`; an
alien transaction sharing the indexed txid prefix but funding another script
hash contributes nothing. -/
theorem status_funding_script_hash (q : Query) (sh : ScriptHash) (s : Status)
    (hs : q.status sh = .ok s) :
    ∀ fo ∈ s.confirmed.1 ++ s.mempool.1, ∃ t : TxnHeight, fo.txn = some t ∧
      fo.txn_id = t.txn.txid ∧
      ∃ out, t.txn.output[fo.output_index]? = some out ∧
        q.compute_script_hash out.script_pubkey = sh := by
  intro fo hfo
  obtain ⟨hconf, hmem⟩ := status_ok hs
  obtain ⟨ctxns, _, hcf, _⟩ := confirmed_status_ok hconf
  obtain ⟨mtxns, _, hmf, _⟩ := mempool_status_ok hmem
  rcases List.mem_append.mp hfo with hfo | hfo
  · rw [hcf] at hfo
    obtain ⟨t, _, hmemf⟩ := List.mem_flatMap.mp hfo
    obtain ⟨ht, hid, _, out, hout, hhash, _⟩ := mem_find_funding_outputs hmemf
    exact ⟨t, ht, hid, out, hout, hhash⟩
  · rw [hmf] at hfo
    obtain ⟨t, _, hmemf⟩ := List.mem_flatMap.mp hfo
    obtain ⟨ht, hid, _, out, hout, hhash, _⟩ := mem_find_funding_outputs hmemf
    exact ⟨t, ht, hid, out, hout, hhash⟩

theorem status_funding_script_hash_witness :
    qS2.status 0 = .ok sS2 ∧
    (∃ t : TxnHeight, fA.txn = some t ∧ fA.txn_id = t.txn.txid ∧
      ∃ out, t.txn.output[fA.output_index]? = some out ∧
        qS2.compute_script_hash out.script_pubkey = 0) :=
  ⟨rfl, status_funding_script_hash qS2 0 sS2 rfl fA (by decide)⟩

/-- Each `Option` step of the `history_txs` map fills succeeds when every
entry's transaction handle is present. -/
theorem foldlM_insert_isSome {α : Type} (txn : α → Option TxnHeight) (key : α → Hash) :
    ∀ (l : List α) (m : List (Hash × TxnHeight)),
      (∀ a ∈ l, (txn a).isSome) →
      (l.foldlM (fun m a => (txn a).map (fun t => insertMap m (key a) t)) m).isSome
  | [], _, _ => by simp [List.foldlM]
  | a :: rest, m, h => by
    obtain ⟨t, ht⟩ := Option.isSome_iff_exists.mp (h a (List.mem_cons_self ..))
    rw [List.foldlM_cons, ht]
    simpa using foldlM_insert_isSome txn key rest (insertMap m (key a) t)
      (fun b hb => h b (List.mem_cons_of_mem a hb))

/-- C9: every funding output and spending input of a status carries a full
transaction handle, so the unwraps in `history_txs` cannot fail on a status
produced by `status()`. -/
theorem status_txn_handles (q : Query) (sh : ScriptHash) (s : Status)
    (hs : q.status sh = .ok s) :
    (∀ f ∈ s.funding, f.txn.isSome) ∧ (∀ sp ∈ s.spending, sp.txn.isSome) ∧
      s.history_txs.isSome := by
  obtain ⟨hconf, hmem⟩ := status_ok hs
  obtain ⟨ctxns, _, hcf, hcs⟩ := confirmed_status_ok hconf
  obtain ⟨mtxns, _, hmf, hms⟩ := mempool_status_ok hmem
  have hfund : ∀ f ∈ s.funding, f.txn.isSome := by
    intro f hf
    rcases List.mem_append.mp hf with hf | hf
    · rw [hcf] at hf
      obtain ⟨t, _, hmemf⟩ := List.mem_flatMap.mp hf
      obtain ⟨ht, _⟩ := mem_find_funding_outputs hmemf
      rw [ht]; rfl
    · rw [hmf] at hf
      obtain ⟨t, _, hmemf⟩ := List.mem_flatMap.mp hf
      obtain ⟨ht, _⟩ := mem_find_funding_outputs hmemf
      rw [ht]; rfl
  have hspend : ∀ sp ∈ s.spending, sp.txn.isSome := by
    intro sp hsp
    have handle : ∀ (store : ReadStore) (l : List FundingOutput) (out : List SpendingInput),
        q.collect_spending store l = .ok out → sp ∈ out → sp.txn.isSome := by
      intro store l out hcol hout
      obtain ⟨f, _, hfind⟩ := mem_collect_spending hcol sp hout
      obtain ⟨ts, _, hmemsp⟩ := find_spending_input_ok_some hfind
      obtain ⟨t, _, htxn, _⟩ := mem_spending_inputs_of hmemsp
      rw [htxn]; rfl
    rcases List.mem_append.mp hsp with hsp | hsp
    · exact handle q.read_store s.confirmed.1 s.confirmed.2 hcs hsp
    · exact handle q.tracker_index (s.mempool.1 ++ s.confirmed.1) s.mempool.2 hms hsp
  refine ⟨hfund, hspend, ?_⟩
  unfold Status.history_txs
  obtain ⟨m1, hm1⟩ := Option.isSome_iff_exists.mp
    (foldlM_insert_isSome FundingOutput.txn FundingOutput.txn_id s.funding [] hfund)
  rw [hm1]
  dsimp only
  obtain ⟨m2, hm2⟩ := Option.isSome_iff_exists.mp
    (foldlM_insert_isSome SpendingInput.txn SpendingInput.txn_id s.spending m1 hspend)
  rw [hm2]
  rfl

theorem status_txn_handles_witness :
    (∀ f ∈ sS2.funding, f.txn.isSome) ∧ (∀ sp ∈ sS2.spending, sp.txn.isSome) ∧
      sS2.history_txs.isSome :=
  status_txn_handles qS2 0 sS2 rfl

/-- A corrupt-index fixture: one candidate transaction with two inputs both
spending outpoint `(1, 0)`. -/
def txBad : Transaction :=
  { input := [{ previous_output := ⟨1, 0⟩ }, { previous_output := ⟨1, 0⟩ }],
    output := [], txid := 2 }

/-- Store holding `txBad` as the indexed spender of `(1, 0)`. -/
def storeBad : ReadStore :=
  { emptyStore with
    txRowScan := fun p => if p = 2 then [⟨2, 50, 3⟩] else []
    txInScan := fun t i => if t = 1 ∧ i = 0 then [2] else []
    rawTxGet := fun t => if t = 2 then some txBad else none }

/-- Query environment over the corrupt store. -/
def qBad : Query :=
  { read_store := storeBad
    tracker_index := emptyStore
    tracker_get_txn := fun _ => none
    index_get_header := fun _ => none
    compute_script_hash := fun s => s
    is_provably_unspendable := fun _ => false }

/-- `txBad` as loaded by the spending scan. -/
def tBad : TxnHeight := { txn := txBad, height := 50, blockhash := 3 }

/-- C2: a found spender's recorded input really spends the funding outpoint
(candidates with mismatched outpoints are filtered out, so at most one spender
is ever returned), and two or more matching spending inputs make
`find_spending_input` fail with the corruption assertion, which is fatal for
the request while the process continues. -/
theorem find_spending_input_at_most_one (q : Query) (store : ReadStore) (f : FundingOutput)
    (hvout : f.output_index < 4294967296) :
    (∀ s, q.find_spending_input store f = .ok (some s) →
      s.funding_output = (f.txn_id, f.output_index) ∧
      ∃ t, s.txn = some t ∧ ∃ inp, t.txn.input[s.input_index]? = some inp ∧
        inp.previous_output = ⟨f.txn_id, f.output_index⟩) ∧
    (∀ ts, q.load_txns_by_prefix store
        (txids_by_funding_output store f.txn_id f.output_index) = .ok ts →
      2 ≤ (spending_inputs_of f ts).length →
      q.find_spending_input store f =
        .error "assertion failed: spending_inputs.len() <= 1") := by
  constructor
  · intro s h
    obtain ⟨ts, _, hmem⟩ := find_spending_input_ok_some h
    obtain ⟨t, _, htxn, _, _, hfo, _, inp, hinp, htxid, hvout2⟩ :=
      mem_spending_inputs_of hmem
    rw [Nat.mod_eq_of_lt hvout] at hvout2
    have hpo : inp.previous_output = ⟨f.txn_id, f.output_index⟩ := by
      have heta : inp.previous_output
          = ⟨inp.previous_output.txid, inp.previous_output.vout⟩ := rfl
      rw [heta, htxid, hvout2]
    exact ⟨hfo, t, htxn, inp, hinp, hpo⟩
  · intro ts hload h2
    unfold Query.find_spending_input
    rw [hload]
    simp only []
    rw [if_neg (by omega)]

theorem find_spending_input_at_most_one_witness :
    (spC.funding_output = (fA.txn_id, fA.output_index) ∧
      ∃ t, spC.txn = some t ∧ ∃ inp, t.txn.input[spC.input_index]? = some inp ∧
        inp.previous_output = ⟨fA.txn_id, fA.output_index⟩) ∧
    qBad.find_spending_input storeBad (FundingOutput.fromOutPoint (1, 0)) =
      .error "assertion failed: spending_inputs.len() <= 1" :=
  ⟨(find_spending_input_at_most_one qS2 storeC fA (by decide)).1 spC rfl,
    (find_spending_input_at_most_one qBad storeBad (FundingOutput.fromOutPoint (1, 0))
        (by decide)).2 [tBad] rfl (by decide)⟩

/-- A found spender copies the probe funding output's `value` field. -/
theorem find_spending_input_value {q : Query} {store : ReadStore}
    {f : FundingOutput} {s : SpendingInput}
    (h : q.find_spending_input store f = .ok (some s)) : s.value = f.value := by
  obtain ⟨ts, _, hmem⟩ := find_spending_input_ok_some h
  obtain ⟨t, _, _, _, _, _, hval, _⟩ := mem_spending_inputs_of hmem
  exact hval

/-- Any spender found through an outpoint probe has value 0: the probe
`FundingOutput` is built by `From<OutPoint>` with `value: 0` and the spender
copies it. -/
theorem find_spending_by_outpoint_value {q : Query} {outpoint : OutPoint}
    {s : SpendingInput} (h : q.find_spending_by_outpoint outpoint = .ok (some s)) :
    s.value = 0 := by
  unfold Query.find_spending_by_outpoint at h
  simp only [] at h
  split at h
  · exact absurd h (by simp)
  · rename_i spent hfind
    cases Except.ok.inj h
    exact find_spending_input_value hfind
  · split at h
    · exact absurd h (by simp)
    · rename_i spent hfind
      cases Except.ok.inj h
      exact find_spending_input_value hfind
    · exact absurd h (by simp)

/-- Every `some` entry of `spends_for_outputs` has value 0. -/
theorem spends_for_outputs_value {q : Query} {txid : Hash} :
    ∀ {l : List (Nat × TxOut)} {spends : List (Option SpendingInput)},
      q.spends_for_outputs txid l = .ok spends →
      ∀ sp ∈ spends, ∀ s, sp = some s → s.value = 0
  | [], spends, h, sp, hsp, s, hs => by
    unfold Query.spends_for_outputs at h
    cases Except.ok.inj h
    exact absurd hsp (by simp)
  | p :: rest, spends, h, sp, hsp, s, hs => by
    unfold Query.spends_for_outputs at h
    split at h
    · exact absurd h (by simp)
    · rename_i spend hspend
      split at h
      · exact absurd h (by simp)
      · rename_i spends' hrest
        cases Except.ok.inj h
        rcases List.mem_cons.mp hsp with hsp | hsp
        · subst hsp
          subst hs
          unfold Query.spend_for_output at hspend
          split at hspend
          · exact find_spending_by_outpoint_value hspend
          · exact absurd (Except.ok.inj hspend) (by simp)
        · exact spends_for_outputs_value hrest sp hsp s hs

/-- C10: every spending input returned by `find_spending_by_outpoint` (and
hence every `some` entry of `find_spending_for_funding_tx`) carries
`value = 0`, because the probe `FundingOutput` is built from the outpoint with
value 0 and the spending input copies that value. -/
theorem outpoint_probe_value_zero (q : Query) (outpoint : OutPoint) (tx : Transaction) :
    (∀ s, q.find_spending_by_outpoint outpoint = .ok (some s) → s.value = 0) ∧
    (∀ spends, q.find_spending_for_funding_tx tx = .ok spends →
      ∀ sp ∈ spends, ∀ s, sp = some s → s.value = 0) := by
  constructor
  · intro s h
    exact find_spending_by_outpoint_value h
  · intro spends h sp hsp s hs
    exact spends_for_outputs_value h sp hsp s hs

/-- The spender of `(1, 0)` as found by the outpoint probe in scenario S2:
note `value = 0` even though the spent output is worth 1000. -/
def spD : SpendingInput :=
  { txn := some tC, txn_id := 2, height := 4294967295, input_index := 0,
    funding_output := (1, 0), value := 0 }

theorem outpoint_probe_value_zero_witness :
    spD.value = 0 ∧
    (∀ sp ∈ [some spD], ∀ s, sp = some s → s.value = 0) :=
  ⟨(outpoint_probe_value_zero qS2 (1, 0) txA).1 spD rfl,
    (outpoint_probe_value_zero qS2 (1, 0) txA).2 [some spD] rfl⟩

/-! ## Association-list map lemmas (for `Status.unspent`) -/

/-- Keys are pairwise distinct. -/
def NoDupKeys {κ α : Type} (m : List (κ × α)) : Prop :=
  (m.map Prod.fst).Nodup

theorem mem_insertMap {κ α : Type} [DecidableEq κ] :
    ∀ {m : List (κ × α)} {k : κ} {v : α} {p : κ × α},
      p ∈ insertMap m k v → p = (k, v) ∨ p ∈ m
  | [], k, v, p, hp => by
    unfold insertMap at hp
    rcases List.mem_singleton.mp hp with h
    exact Or.inl h
  | (k', v') :: rest, k, v, p, hp => by
    unfold insertMap at hp
    split at hp
    · rcases List.mem_cons.mp hp with h | h
      · exact Or.inl h
      · exact Or.inr (List.mem_cons_of_mem _ h)
    · rcases List.mem_cons.mp hp with h | h
      · exact Or.inr (h ▸ List.mem_cons_self ..)
      · rcases mem_insertMap h with h | h
        · exact Or.inl h
        · exact Or.inr (List.mem_cons_of_mem _ h)

theorem keys_insertMap {κ α : Type} [DecidableEq κ] :
    ∀ {m : List (κ × α)} {k : κ} {v : α} {k' : κ},
      k' ∈ (insertMap m k v).map Prod.fst → k' = k ∨ k' ∈ m.map Prod.fst := by
  intro m k v k' h
  rw [List.mem_map] at h
  obtain ⟨p, hp, hk⟩ := h
  rcases mem_insertMap hp with hp | hp
  · subst hp; exact Or.inl hk.symm
  · exact Or.inr (hk ▸ List.mem_map_of_mem Prod.fst hp)

theorem insertMap_nodupKeys {κ α : Type} [DecidableEq κ] :
    ∀ {m : List (κ × α)} {k : κ} {v : α},
      NoDupKeys m → NoDupKeys (insertMap m k v)
  | [], k, v, _ => by
    unfold insertMap NoDupKeys
    simp
  | (k', v') :: rest, k, v, h => by
    unfold NoDupKeys at h
    rw [List.map_cons, List.nodup_cons] at h
    unfold insertMap
    split
    · rename_i heq
      unfold NoDupKeys
      rw [List.map_cons, List.nodup_cons]
      exact ⟨heq ▸ h.1, h.2⟩
    · rename_i hne
      unfold NoDupKeys
      rw [List.map_cons, List.nodup_cons]
      refine ⟨?_, insertMap_nodupKeys h.2⟩
      intro hmem
      rcases keys_insertMap hmem with hk | hk
      · exact hne hk.symm
      · exact h.1 hk

theorem eraseMap_sublist {κ α : Type} [DecidableEq κ] :
    ∀ (m : List (κ × α)) (k : κ), (eraseMap m k).Sublist m
  | [], _ => by unfold eraseMap; exact List.Sublist.refl _
  | (k', v') :: rest, k => by
    unfold eraseMap
    split
    · exact List.sublist_cons_self ..
    · exact List.Sublist.cons₂ _ (eraseMap_sublist rest k)

theorem eraseMap_nodupKeys {κ α : Type} [DecidableEq κ] {m : List (κ × α)} {k : κ}
    (h : NoDupKeys m) : NoDupKeys (eraseMap m k) :=
  List.Sublist.nodup (List.Sublist.map Prod.fst (eraseMap_sublist m k)) h

theorem mem_eraseMap_ne {κ α : Type} [DecidableEq κ] :
    ∀ {m : List (κ × α)} {k : κ} {p : κ × α},
      NoDupKeys m → p ∈ eraseMap m k → p.1 ≠ k
  | [], k, p, _, hp => by
    unfold eraseMap at hp
    exact absurd hp (by simp)
  | (k', v') :: rest, k, p, h, hp => by
    unfold NoDupKeys at h
    rw [List.map_cons, List.nodup_cons] at h
    unfold eraseMap at hp
    split at hp
    · rename_i heq
      intro hkp
      have hmem : p.1 ∈ rest.map Prod.fst := List.mem_map_of_mem Prod.fst hp
      rw [hkp, heq] at hmem
      exact h.1 hmem
    · rename_i hne
      rcases List.mem_cons.mp hp with hp | hp
      · subst hp
        exact fun hk => hne (hk ▸ rfl)
      · exact mem_eraseMap_ne h.2 hp

theorem foldl_eraseMap_sublist {κ α β : Type} [DecidableEq κ] (key : β → κ) :
    ∀ (l : List β) (m : List (κ × α)),
      (l.foldl (fun m b => eraseMap m (key b)) m).Sublist m
  | [], m => List.Sublist.refl m
  | b :: rest, m => by
    rw [List.foldl_cons]
    exact (foldl_eraseMap_sublist key rest (eraseMap m (key b))).trans
      (eraseMap_sublist m (key b))

/-- After folding erasures over a list containing key `k`, no entry with key
`k` survives (given the starting map has distinct keys). -/
theorem foldl_eraseMap_not_mem {κ α β : Type} [DecidableEq κ] (key : β → κ) :
    ∀ (l : List β) (m : List (κ × α)) (b : β), NoDupKeys m → b ∈ l →
      ∀ p ∈ l.foldl (fun m b => eraseMap m (key b)) m, p.1 ≠ key b
  | [], m, b, _, hb => absurd hb (by simp)
  | c :: rest, m, b, h, hb => by
    rw [List.foldl_cons]
    rcases List.mem_cons.mp hb with hb | hb
    · subst hb
      intro p hp
      have hp' : p ∈ eraseMap m (key b) :=
        (foldl_eraseMap_sublist key rest (eraseMap m (key b))).mem hp
      exact mem_eraseMap_ne h hp'
    · exact foldl_eraseMap_not_mem key rest (eraseMap m (key c)) b
        (eraseMap_nodupKeys h) hb

theorem foldl_insertMap_nodupKeys {κ α β : Type} [DecidableEq κ]
    (key : β → κ) (val : β → α) :
    ∀ (l : List β) (m : List (κ × α)), NoDupKeys m →
      NoDupKeys (l.foldl (fun m b => insertMap m (key b) (val b)) m)
  | [], m, h => h
  | b :: rest, m, h => by
    rw [List.foldl_cons]
    exact foldl_insertMap_nodupKeys key val rest _ (insertMap_nodupKeys h)

/-- Every entry of the folded insert map either was in the start map or binds
one of the inserted keys to its value. -/
theorem mem_foldl_insertMap {κ α β : Type} [DecidableEq κ]
    (key : β → κ) (val : β → α) :
    ∀ (l : List β) (m : List (κ × α)) (p : κ × α),
      p ∈ l.foldl (fun m b => insertMap m (key b) (val b)) m →
      p ∈ m ∨ ∃ b ∈ l, p = (key b, val b)
  | [], m, p, hp => Or.inl hp
  | b :: rest, m, p, hp => by
    rw [List.foldl_cons] at hp
    rcases mem_foldl_insertMap key val rest _ p hp with hp | ⟨c, hc, hpc⟩
    · rcases mem_insertMap hp with hp | hp
      · exact Or.inr ⟨b, List.mem_cons_self .., hp⟩
      · exact Or.inl hp
    · exact Or.inr ⟨c, List.mem_cons_of_mem b hc, hpc⟩

theorem mem_insertSorted {α : Type} (le : α → α → Bool) :
    ∀ {l : List α} {a b : α}, b ∈ insertSorted le a l → b = a ∨ b ∈ l
  | [], a, b, hb => by
    unfold insertSorted at hb
    exact Or.inl (List.mem_singleton.mp hb)
  | c :: rest, a, b, hb => by
    unfold insertSorted at hb
    split at hb
    · rcases List.mem_cons.mp hb with hb | hb
      · exact Or.inl hb
      · exact Or.inr hb
    · rcases List.mem_cons.mp hb with hb | hb
      · exact Or.inr (hb ▸ List.mem_cons_self ..)
      · rcases mem_insertSorted le hb with hb | hb
        · exact Or.inl hb
        · exact Or.inr (List.mem_cons_of_mem c hb)

theorem mem_sortBy {α : Type} (le : α → α → Bool) :
    ∀ {l : List α} {a : α}, a ∈ sortBy le l → a ∈ l
  | [], a, ha => by
    unfold sortBy at ha
    exact absurd ha (by simp)
  | b :: rest, a, ha => by
    unfold sortBy at ha
    rcases mem_insertSorted le ha with ha | ha
    · exact ha ▸ List.mem_cons_self ..
    · exact List.mem_cons_of_mem b (mem_sortBy le ha)

/-- `unspent` never lists an outpoint that some spending input of the status
spends. -/
theorem unspent_excludes {s : Status} {sp : SpendingInput} (hsp : sp ∈ s.spending) :
    ∀ g ∈ s.unspent, (g.txn_id, g.output_index) ≠ sp.funding_output := by
  intro g hg
  unfold Status.unspent at hg
  simp only [] at hg
  have hsub := mem_sortBy _ hg
  rw [List.mem_map] at hsub
  obtain ⟨p, hp, hpg⟩ := hsub
  have hnodup : NoDupKeys (s.funding.foldl
      (fun m f => insertMap m (f.txn_id, f.output_index) f) []) := by
    have := foldl_insertMap_nodupKeys
      (fun f : FundingOutput => ((f.txn_id, f.output_index) : OutPoint))
      (fun f => f) s.funding []
    exact this (by unfold NoDupKeys; simp)
  have hkey := foldl_eraseMap_not_mem (fun sp : SpendingInput => sp.funding_output)
    s.spending _ sp hnodup hsp p hp
  have hpkey : p.1 = (g.txn_id, g.output_index) := by
    rcases mem_foldl_insertMap
        (fun f : FundingOutput => ((f.txn_id, f.output_index) : OutPoint))
        (fun f => f) s.funding [] p
        ((foldl_eraseMap_sublist (fun sp : SpendingInput => sp.funding_output)
          s.spending _).mem hp) with hmem | ⟨f, _, hpf⟩
    · exact absurd hmem (by simp)
    · subst hpf
      have hfg : f = g := hpg
      subst hfg
      rfl
  rw [← hpkey]
  exact hkey

/-- C4: the mempool spending scan covers every funding output of the script
hash — mempool-found and confirmed alike — so a confirmed funding output whose
sole spender is a mempool transaction stays in `status.confirmed.funding`,
contributes that spender to `status.mempool.spending`, and is excluded from
`unspent()`. -/
theorem mempool_spends_confirmed (q : Query) (sh : ScriptHash) (s : Status)
    (f : FundingOutput) (sp : SpendingInput)
    (hs : q.status sh = .ok s)
    (hf : f ∈ s.confirmed.1)
    (hsp : q.find_spending_input q.tracker_index f = .ok (some sp)) :
    f ∈ s.confirmed.1 ∧ sp ∈ s.mempool.2 ∧
    ∀ g ∈ s.unspent, (g.txn_id, g.output_index) ≠ (f.txn_id, f.output_index) := by
  obtain ⟨hconf, hmem⟩ := status_ok hs
  obtain ⟨mtxns, _, hmf, hms⟩ := mempool_status_ok hmem
  have hspmem : sp ∈ s.mempool.2 :=
    collect_spending_complete hms f (List.mem_append_right s.mempool.1 hf) sp hsp
  have hfo : sp.funding_output = (f.txn_id, f.output_index) := by
    obtain ⟨ts, _, hm2⟩ := find_spending_input_ok_some hsp
    obtain ⟨t, _, _, _, _, hfo, _⟩ := mem_spending_inputs_of hm2
    exact hfo
  refine ⟨hf, hspmem, ?_⟩
  intro g hg
  have := unspent_excludes (List.mem_append_right s.confirmed.2 hspmem) g hg
  rw [hfo] at this
  exact this

theorem mempool_spends_confirmed_witness :
    fA ∈ sS2.confirmed.1 ∧ spC ∈ sS2.mempool.2 ∧
    ∀ g ∈ sS2.unspent, (g.txn_id, g.output_index) ≠ (fA.txn_id, fA.output_index) :=
  mempool_spends_confirmed qS2 0 sS2 fA spC rfl (by decide) rfl

/-- A transaction funding script hash 0 with a single 1-satoshi output. -/
def tx100 (t : Hash) : Transaction :=
  { input := [], output := [{ script_pubkey := 0, value := 1 }], txid := t }

/-- A store with exactly 100 `TxOutRow` matches for script hash 0, every
prefix resolving to one locatable transaction, and no spenders. -/
def store100 : ReadStore :=
  { emptyStore with
    txOutScan := fun sh => if sh = 0 then List.range 100 else []
    txRowScan := fun p => [⟨p, 7, 5⟩]
    rawTxGet := fun t => some (tx100 t) }

/-- Query environment over `store100` with an empty mempool. -/
def q100 : Query :=
  { read_store := store100
    tracker_index := emptyStore
    tracker_get_txn := fun _ => none
    index_get_header := fun _ => none
    compute_script_hash := fun s => s
    is_provably_unspendable := fun _ => false }

/-- The same store with 101 `TxOutRow` matches for script hash 0. -/
def store101 : ReadStore :=
  { store100 with txOutScan := fun sh => if sh = 0 then List.range 101 else [] }

/-- Query environment over `store101`. -/
def q101 : Query :=
  { q100 with read_store := store101 }

set_option maxRecDepth 10000 in
/-- C6: with more than `FUNDING_TXN_LIMIT` (= 100) matching `TxOutRow` entries
(the scan takes at most 101 of them) `status()` fails with the `Too many txs`
error, while a store with exactly 100 matching entries, all of whose prefixes
resolve to locatable transactions, succeeds. -/
theorem funding_txn_limit :
    (∀ (q : Query) (sh : ScriptHash),
      FUNDING_TXN_LIMIT < (q.read_store.txOutScan sh).length →
      q.status sh = .error "Too many txs") ∧
    (q100.status 0).isOk = true := by
  constructor
  · intro q sh h
    have hlen : (txids_by_script_hash q.read_store sh).length = FUNDING_TXN_LIMIT + 1 := by
      unfold txids_by_script_hash
      rw [List.length_take]
      unfold FUNDING_TXN_LIMIT at h ⊢
      omega
    have hload : q.load_txns_by_prefix q.read_store (txids_by_script_hash q.read_store sh)
        = .error "Too many txs" := by
      unfold Query.load_txns_by_prefix
      rw [if_pos (show (txids_by_script_hash q.read_store sh).length > FUNDING_TXN_LIMIT
        by omega)]
    unfold Query.status Query.confirmed_status
    rw [hload]
  · decide

theorem funding_txn_limit_witness :
    q101.status 0 = .error "Too many txs" :=
  funding_txn_limit.1 q101 0 (by decide)

/-- On a descending histogram, `feeLoop` never returns more than a bound on
all remaining rates. -/
theorem feeLoop_le (target : Nat) :
    ∀ (hist : List (ℚ × Nat)) (total : Nat) (last : ℚ),
      List.Sorted (fun a b => Prod.fst b ≤ Prod.fst a) hist →
      (∀ p ∈ hist, p.1 ≤ last) →
      feeLoop target total last hist ≤ last
  | [], _, _, _, _ => le_refl _
  | (r, v) :: rest, total, last, hsorted, hle => by
    rw [List.sorted_cons] at hsorted
    unfold feeLoop
    simp only []
    have hr : r ≤ last := hle (r, v) (List.mem_cons_self ..)
    split
    · exact hr
    · exact le_trans (feeLoop_le target rest _ r hsorted.2 hsorted.1) hr

/-- On a descending histogram a larger vsize target can only stop the loop
later, so it yields a smaller (or equal) fee rate. -/
theorem feeLoop_mono : ∀ (hist : List (ℚ × Nat)) (t1 t2 total : Nat) (last : ℚ),
    t1 ≤ t2 → List.Sorted (fun a b => Prod.fst b ≤ Prod.fst a) hist →
    feeLoop t2 total last hist ≤ feeLoop t1 total last hist
  | [], _, _, _, _, _, _ => le_refl _
  | (r, v) :: rest, t1, t2, total, last, h12, hsorted => by
    rw [List.sorted_cons] at hsorted
    unfold feeLoop
    simp only []
    by_cases h2 : (total + v) % 4294967296 ≥ t2
    · rw [if_pos h2, if_pos (le_trans h12 h2)]
    · rw [if_neg h2]
      by_cases h1 : (total + v) % 4294967296 ≥ t1
      · rw [if_pos h1]
        exact feeLoop_le t2 rest _ r hsorted.2 hsorted.1
      · rw [if_neg h1]
        exact feeLoop_mono rest t1 t2 _ r h12 hsorted.2

/-- C7 counterexample: on a descending non-negative histogram, `estimate_fee`
is *not* non-increasing in the block target — at `blocks = 4295` the
`(blocks * 1_000_000) as u32` cast wraps (target 32 704 vbytes instead of
4 295 000 000), so the loop breaks in the first bucket and reports a higher
fee rate than at `blocks = 4294`. -/
theorem estimate_fee_not_monotone :
    List.Sorted (fun a b => Prod.fst b ≤ Prod.fst a) [((50 : ℚ), 600000), (20, 40000000)] ∧
    (∀ p ∈ [((50 : ℚ), 600000), (20, 40000000)], 0 ≤ p.1) ∧
    (4294 : Nat) ≤ 4295 ∧
    ¬ (estimate_fee [((50 : ℚ), 600000), (20, 40000000)] 4295 ≤
        estimate_fee [((50 : ℚ), 600000), (20, 40000000)] 4294) := by
  refine ⟨by norm_num [List.sorted_cons], by norm_num, by norm_num, ?_⟩
  have h1 : estimate_fee [((50 : ℚ), 600000), (20, 40000000)] 4294 = 1 / 5000 := by
    norm_num [estimate_fee, feeLoop]
  have h2 : estimate_fee [((50 : ℚ), 600000), (20, 40000000)] 4295 = 1 / 2000 := by
    norm_num [estimate_fee, feeLoop]
  rw [h1, h2]
  norm_num

/-- C7 (amended): for a fixed histogram sorted by fee rate descending with
non-negative rates, `estimate_fee` is non-increasing over block targets whose
vbyte budget does not overflow the `u32` cast
(`k2 * 1_000_000 < 2^32`). -/
theorem estimate_fee_monotone (hist : List (ℚ × Nat))
    (hsorted : List.Sorted (fun a b => Prod.fst b ≤ Prod.fst a) hist)
    (hnonneg : ∀ p ∈ hist, 0 ≤ p.1)
    (k1 k2 : Nat) (h12 : k1 ≤ k2) (hbound : k2 * 1000000 < 4294967296) :
    estimate_fee hist k2 ≤ estimate_fee hist k1 := by
  unfold estimate_fee
  simp only []
  have hb1 : k1 * 1000000 < 4294967296 := by
    have : k1 * 1000000 ≤ k2 * 1000000 := by omega
    omega
  rw [Nat.mod_eq_of_lt hbound, Nat.mod_eq_of_lt hb1]
  exact mul_le_mul_of_nonneg_right
    (feeLoop_mono hist (k1 * 1000000) (k2 * 1000000) 0 0 (by omega) hsorted)
    (by norm_num)

theorem estimate_fee_monotone_witness :
    estimate_fee [((50 : ℚ), 600000), (20, 800000), (5, 5000000)] 2 ≤
      estimate_fee [((50 : ℚ), 600000), (20, 800000), (5, 5000000)] 1 :=
  estimate_fee_monotone _ (by norm_num [List.sorted_cons]) (by norm_num) 1 2
    (by norm_num) (by norm_num)

theorem padOdd_even (txids : List Hash) : (padOdd txids).length % 2 = 0 := by
  unfold padOdd
  split <;> rename_i h
  · rw [List.length_append]
    simp only [List.length_singleton]
    omega
  · omega

theorem padOdd_getElem? (txids : List Hash) (i : Nat) (h : i < txids.length) :
    (padOdd txids)[i]? = txids[i]? := by
  unfold padOdd
  split
  · exact List.getElem?_append_left h
  · rfl

theorem padOdd_length_le (txids : List Hash) :
    txids.length ≤ (padOdd txids).length ∧ (padOdd txids).length ≤ txids.length + 1 := by
  rw [padOdd_length]
  split <;> omega

/-- Element `n` of one collapsed level combines elements `2n` and `2n + 1`. -/
theorem hashPairs_getElem? (f : Hash → Hash → Hash) :
    ∀ (l : List Hash) (n : Nat) (a b : Hash),
      l[2 * n]? = some a → l[2 * n + 1]? = some b →
      (hashPairs f l)[n]? = some (f a b)
  | [], n, a, b, ha, _ => by simp at ha
  | [x], n, a, b, _, hb => by
    rw [List.getElem?_eq_none (by simp only [List.length_singleton]; omega)] at hb
    cases hb
  | x :: y :: rest, n, a, b, ha, hb => by
    cases n with
    | zero =>
      simp only [Nat.mul_zero, List.getElem?_cons_zero] at ha
      simp only [Nat.mul_zero, Nat.zero_add, List.getElem?_cons_succ,
        List.getElem?_cons_zero] at hb
      simp only [hashPairs, List.getElem?_cons_zero]
      rw [Option.some.inj ha, Option.some.inj hb]
    | succ m =>
      rw [show 2 * (m + 1) = (2 * m + 1) + 1 by ring, List.getElem?_cons_succ,
        List.getElem?_cons_succ] at ha
      rw [show 2 * (m + 1) + 1 = ((2 * m + 1) + 1) + 1 by ring, List.getElem?_cons_succ,
        List.getElem?_cons_succ] at hb
      simp only [hashPairs, List.getElem?_cons_succ]
      exact hashPairs_getElem? f rest m a b ha hb


/-- The invariant of the proof loop: folding the leaf at `index` up the
recorded sibling path reproduces the duplicate-last-leaf merkle root. -/
theorem merkleLoop_foldProof_aux (f : Hash → Hash → Hash) :
    ∀ (n : Nat) (txids : List Hash), txids.length = n →
      ∀ (index : Nat) (a : Hash), txids[index]? = some a →
      foldProof f (merkleLoop f txids index) a index = merkleRoot f txids := by
  intro n
  induction n using Nat.strong_induction_on with
  | _ n ih =>
    intro txids hn index a ha
    have hidx : index < txids.length := by
      by_contra hc
      rw [List.getElem?_eq_none (by omega)] at ha
      cases ha
    by_cases h1 : txids.length > 1
    · have hpe : (padOdd txids).length % 2 = 0 := padOdd_even txids
      obtain ⟨hplen1, hplen2⟩ := padOdd_length_le txids
      have hsiblt : (if index % 2 = 0 then index + 1 else index - 1) < (padOdd txids).length := by
        split <;> omega
      have hpi : (padOdd txids)[index]? = some a := by
        rw [padOdd_getElem? _ _ hidx]; exact ha
      have hb : (padOdd txids)[(if index % 2 = 0 then index + 1 else index - 1)]?
          = some ((padOdd txids)[(if index % 2 = 0 then index + 1 else index - 1)]!) := by
        rw [getElem!_pos (padOdd txids) (if index % 2 = 0 then index + 1 else index - 1)
          hsiblt]
        exact List.getElem?_eq_getElem hsiblt
      have hcomb : (hashPairs f (padOdd txids))[index / 2]?
          = some (if index % 2 = 0
              then f a ((padOdd txids)[(if index % 2 = 0 then index + 1 else index - 1)]!)
              else f ((padOdd txids)[(if index % 2 = 0 then index + 1 else index - 1)]!) a) := by
        by_cases hpar : index % 2 = 0
        · rw [if_pos hpar]
          apply hashPairs_getElem?
          · rw [show 2 * (index / 2) = index by omega]
            exact hpi
          · rw [show 2 * (index / 2) + 1 = (if index % 2 = 0 then index + 1 else index - 1)
              by rw [if_pos hpar]; omega]
            exact hb
        · rw [if_neg hpar]
          apply hashPairs_getElem?
          · rw [show 2 * (index / 2) = (if index % 2 = 0 then index + 1 else index - 1)
              by rw [if_neg hpar]; omega]
            exact hb
          · rw [show 2 * (index / 2) + 1 = index by omega]
            exact hpi
      have hreclt : (hashPairs f (padOdd txids)).length < n := by
        rw [hashPairs_length]
        omega
      have hrec := ih (hashPairs f (padOdd txids)).length hreclt
        (hashPairs f (padOdd txids)) rfl (index / 2) _ hcomb
      rw [merkleLoop, dif_pos h1]
      simp only []
      rw [merkleRoot, dif_pos h1]
      simp only [foldProof]
      exact hrec
    · have hlen1 : txids.length = 1 := by omega
      obtain ⟨x, hx⟩ := List.length_eq_one.mp hlen1
      subst hx
      have hi0 : index = 0 := by
        simp only [List.length_singleton] at hidx
        omega
      subst hi0
      simp only [List.getElem?_cons_zero] at ha
      rw [merkleLoop, merkleRoot]
      rw [dif_neg (by simp), dif_neg (by simp)]
      simp only [foldProof, List.headD]
      exact (Option.some.inj ha).symm

/-- `position(|txid| txid == tx_hash)` finds an index holding the target. -/
theorem findIdx?_some_getElem? :
    ∀ (l : List Hash) (t : Hash) (pos : Nat),
      l.findIdx? (fun x => x = t) = some pos → l[pos]? = some t
  | [], t, pos, h => by simp [List.findIdx?] at h
  | x :: rest, t, pos, h => by
    rw [List.findIdx?_cons] at h
    by_cases hx : x = t
    · simp [hx] at h
      subst hx
      rw [← h, List.getElem?_cons_zero]
    · simp [hx] at h
      obtain ⟨m, hm, hpos⟩ := h
      subst hpos
      rw [List.getElem?_cons_succ]
      exact findIdx?_some_getElem? rest t m hm

/-- C5: for a stored block txid list containing `tx_hash`, `get_merkle_proof`
returns the found position and a proof path whose parity-directed fold from
`tx_hash` reproduces the duplicate-last-leaf merkle root of the list; for an
absent `tx_hash` it fails.  The SHA256d pair combiner (`merklize`) is a
library hash, carried as the parameter `f`; the theorem holds for every
combiner. -/
theorem get_merkle_proof_spec (f : Hash → Hash → Hash) (q : Query)
    (tx_hash block_hash : Hash) (txids : List Hash)
    (htxids : get_block_txids q.read_store block_hash = some txids) :
    (tx_hash ∈ txids →
      ∃ proof pos, q.get_merkle_proof f tx_hash block_hash = .ok (proof, pos) ∧
        txids[pos]? = some tx_hash ∧
        foldProof f proof tx_hash pos = merkleRoot f txids) ∧
    (tx_hash ∉ txids →
      q.get_merkle_proof f tx_hash block_hash = .error "missing txid") := by
  constructor
  · intro hmem
    obtain ⟨pos, hpos⟩ : ∃ pos, txids.findIdx? (fun txid => txid = tx_hash) = some pos := by
      cases hf : txids.findIdx? (fun txid => txid = tx_hash) with
      | none =>
        rw [List.findIdx?_eq_none_iff] at hf
        have := hf tx_hash hmem
        simp at this
      | some pos => exact ⟨pos, rfl⟩
    have hgt : txids[pos]? = some tx_hash := findIdx?_some_getElem? txids tx_hash pos hpos
    refine ⟨merkleLoop f txids pos, pos, ?_, hgt, ?_⟩
    · unfold Query.get_merkle_proof
      rw [htxids]
      dsimp only
      rw [hpos]
    · exact merkleLoop_foldProof_aux f txids.length txids rfl pos tx_hash hgt
  · intro hnmem
    have hf : txids.findIdx? (fun txid => txid = tx_hash) = none := by
      rw [List.findIdx?_eq_none_iff]
      intro x hx
      simp only [decide_eq_false_iff_not]
      intro he
      exact hnmem (he ▸ hx)
    unfold Query.get_merkle_proof
    rw [htxids]
    dsimp only
    rw [hf]

/-- A stand-in pair combiner for the witness (the theorem holds for every
combiner, SHA256d included). -/
def combineMerk : Hash → Hash → Hash := fun a b => 1000 * a + b

/-- A store holding the txid list `[10, 11, 12]` for block 0. -/
def storeMerk : ReadStore :=
  { emptyStore with blockTxids := fun bh => if bh = 0 then some [10, 11, 12] else none }

/-- Query environment for the merkle witness. -/
def qMerk : Query :=
  { read_store := storeMerk
    tracker_index := emptyStore
    tracker_get_txn := fun _ => none
    index_get_header := fun _ => none
    compute_script_hash := fun s => s
    is_provably_unspendable := fun _ => false }

theorem get_merkle_proof_spec_witness :
    (∃ proof pos, qMerk.get_merkle_proof combineMerk 10 0 = .ok (proof, pos) ∧
      ([10, 11, 12] : List Hash)[pos]? = some 10 ∧
      foldProof combineMerk proof 10 pos = merkleRoot combineMerk [10, 11, 12]) ∧
    qMerk.get_merkle_proof combineMerk 99 0 = .error "missing txid" :=
  ⟨(get_merkle_proof_spec combineMerk qMerk 10 0 [10, 11, 12] rfl).1 (by decide),
    (get_merkle_proof_spec combineMerk qMerk 99 0 [10, 11, 12] rfl).2 (by decide)⟩
